import Mathlib

/-!
# Verification of the Google-Photos-to-Immich URL mapper

A shallow embedding of the correlation and matching engine in
`internal/mapper/mapper.go` (together with the sidecar-metadata model of
`internal/googlephotos`), and proofs about it.

Modelling conventions:
* Go strings are Lean `String`s; the Go byte-level operations are modelled on
  the character list `String.data`.  All file names and suffixes of interest
  are ASCII, where byte-level and character-level suffix/casing operations
  agree; `strings.ToLower` / `strings.EqualFold` are modelled by per-character
  ASCII lowering.
* `time.Time` instants are modelled as `Option Int` (nanoseconds); `none`
  stands for a value whose `IsZero()` is true.
* I/O (reading a sidecar, hashing a media file, querying Immich) is modelled
  by oracle functions collected in an `Env` structure; `none` models the
  error return of the corresponding Go call.
* The walk over one filesystem is modelled by the list of its regular-file
  paths in walk order (the slash-separated relative paths that `fs.WalkDir`
  produces, which are already clean).
* Context cancellation is modelled by a predicate `done : Nat → Bool` on a
  poll counter: `done n = true` means the `ctx.Done()` channel is closed at
  the n-th poll.
-/

/-! ## Go string and path primitives -/

/-- Go `strings.ToLower`, restricted to ASCII case mapping. -/
def lowerStr (s : String) : String := ⟨s.data.map Char.toLower⟩

/-- Go `strings.HasSuffix`. -/
def endsWithStr (s suf : String) : Bool := suf.data.isSuffixOf s.data

/-- Go `strings.TrimSuffix`: drop `suf` from the end of `s` when present. -/
def trimSuffix (s suf : String) : String :=
  if endsWithStr s suf then ⟨s.data.take (s.data.length - suf.data.length)⟩ else s

/-- Go `strings.EqualFold`, restricted to ASCII case folding. -/
def equalFold (a b : String) : Bool := lowerStr a == lowerStr b

/-- Index of the last occurrence of `c`, as Go `strings.LastIndex` (restricted
to a one-character needle); `none` models Go's `-1`. -/
def lastIndexOfChar (c : Char) : List Char → Option Nat
  | [] => none
  | x :: xs =>
    match lastIndexOfChar c xs with
    | some i => some (i + 1)
    | none => if x = c then some 0 else none

/-- Helper for `pathExt`: scan the reversed path, collecting characters until
the first dot (returning the extension including the dot) or a slash or the
start of the string (returning the empty extension). -/
def extRevLoop : List Char → List Char → List Char
  | _acc, [] => []
  | acc, c :: rest =>
    if c = '/' then []
    else if c = '.' then c :: acc
    else extRevLoop (c :: acc) rest

/-- Go `path.Ext`: the suffix beginning at the final dot in the final
slash-separated element; empty if there is no dot. -/
def pathExt (s : String) : String := ⟨extRevLoop [] s.data.reverse⟩

/-- Go `path.Dir` on the clean relative paths produced by the walk. -/
def pathDir (p : String) : String :=
  match lastIndexOfChar '/' p.data with
  | none => "."
  | some i => ⟨p.data.take i⟩

/-- Go `path.Base` on the clean relative paths produced by the walk. -/
def pathBase (p : String) : String :=
  match lastIndexOfChar '/' p.data with
  | none => p
  | some i => ⟨p.data.drop (i + 1)⟩

/-- Go `path.Join` on a clean directory (possibly `"."`) and a file name. -/
def pathJoin (d f : String) : String := if d = "." then f else d ++ "/" ++ f

/-- Numeric value of a nonempty all-digit character list, `none` otherwise. -/
def digitsToNat : List Char → Option Nat
  | [] => none
  | ds =>
    if ds.all (fun c => decide ('0' ≤ c) && decide (c ≤ '9'))
    then some (ds.foldl (fun n c => n * 10 + (c.toNat - 48)) 0)
    else none

def int64Max : Int := 9223372036854775807

def int64Min : Int := -9223372036854775808

/-- Go `strconv.ParseInt(s, 10, 64)` as used with its error ignored: syntax
errors yield 0, out-of-range values are clamped to the int64 bounds. -/
def parseInt64Go (s : String) : Int :=
  match s.data with
  | '+' :: ds =>
    match digitsToNat ds with
    | none => 0
    | some n => if (n : Int) > int64Max then int64Max else (n : Int)
  | '-' :: ds =>
    match digitsToNat ds with
    | none => 0
    | some n => if -(n : Int) < int64Min then int64Min else -(n : Int)
  | ds =>
    match digitsToNat ds with
    | none => 0
    | some n => if (n : Int) > int64Max then int64Max else (n : Int)

/-! ## Sidecar metadata (package googlephotos) -/

/-- Field `photoTakenTime` of the sidecar JSON: a string-encoded epoch. -/
structure GoogTimeObject where
  timestamp : String
deriving DecidableEq, Repr

/-- The sidecar fields the mapper reads: title, capture time, reference URL.
`photoTakenTime = none` models an absent (nil) field. -/
structure GoogleMetaData where
  title : String
  photoTakenTime : Option GoogTimeObject
  url : String
deriving DecidableEq, Repr

/-- Go `GoogleMetaData.IsAsset`: the capture-time object is present and its
timestamp string is nonempty. -/
def GoogleMetaData.isAsset (md : GoogleMetaData) : Bool :=
  match md.photoTakenTime with
  | none => false
  | some gt => gt.timestamp != ""

/-- Go `GoogleMetaData.HasURL`. -/
def GoogleMetaData.hasURL (md : GoogleMetaData) : Bool := md.url != ""

/-- Go `GoogTimeObject.Time()` followed by the caller's `IsZero` test, as an
optional instant in nanoseconds.  The parsed epoch 0 yields the zero `Time`;
epoch -62135596800 is the zero instant itself (year 1), whose `IsZero` is
also true. -/
def GoogTimeObject.time (gt : GoogTimeObject) : Option Int :=
  let ts := parseInt64Go gt.timestamp
  if ts = 0 then none
  else if ts = -62135596800 then none
  else some (ts * 1000000000)

/-! ## Immich assets and query results -/

/-- The fields of `immich.Asset` the mapper reads.  The three timestamps are
optional instants in nanoseconds (`none` models a zero `time.Time`). -/
structure Asset where
  id : String
  originalFileName : String
  localDateTime : Option Int
  fileCreatedAt : Option Int
  dateTimeOriginal : Option Int
deriving DecidableEq, Repr

/-! ## Result records and statistics (package mapper) -/

structure Mapping where
  googleURL : String
  immichURL : String
  jsonFile : String
  path : String
  hash : String
  matchMethod : String
deriving DecidableEq, Repr

structure NotFoundRec where
  googleURL : String
  jsonFile : String
  path : String
  hash : String
deriving DecidableEq, Repr

/-- An orphan media record; absent optional fields are the empty string, as
in the Go zero value. -/
structure OrphanMedia where
  path : String
  hash : String
  immichURL : String
  immichFilename : String
deriving DecidableEq, Repr

structure Stats where
  totalJSONFiles : Nat
  totalGoogleURLs : Nat
  matched : Nat
  matchedByHash : Nat
  matchedByFilename : Nat
  notFoundInImmich : Nat
  noMediaFile : Nat
  hashErrors : Nat
  orphanMedia : Nat
deriving DecidableEq, Repr

structure MapResult where
  mappings : List Mapping
  notFound : List NotFoundRec
  orphanMedia : List OrphanMedia
  stats : Stats
deriving DecidableEq, Repr

def emptyStats : Stats := ⟨0, 0, 0, 0, 0, 0, 0, 0, 0⟩

def emptyResult : MapResult := ⟨[], [], [], emptyStats⟩

/-- The mapper configuration fields that influence classification. -/
structure Config where
  serverURL : String
  dryRun : Bool
  fallbackFilename : Bool

/-- The I/O oracles of one run.
* `readParse p`: `none` models a `fs.ReadFile` error, `some none` a
  `ParseMetadata` error, `some (some md)` a parsed sidecar.
* `hashOf p`: `none` models a `computeHash` error.
* `searchByHash` / `searchByName`: `none` models a failed Immich query (the
  code logs it and continues with a nil slice). -/
structure Env where
  readParse : String → Option (Option GoogleMetaData)
  hashOf : String → Option String
  searchByHash : String → Option (List Asset)
  searchByName : String → Option (List Asset)

/-! ## Media extensions and the sidecar associator -/

/-- The `mediaExtensions` map keys used by `isMediaFile`. -/
def mediaExtensionsList : List String :=
  [".jpg", ".jpeg", ".png", ".gif",
   ".heic", ".heif", ".webp", ".bmp", ".tiff",
   ".mp4", ".mov", ".avi", ".mkv", ".3gp", ".webm"]

/-- Go `isMediaFile`: the lowered `path.Ext` is a key of `mediaExtensions`. -/
def isMediaFile (filename : String) : Bool :=
  mediaExtensionsList.contains (lowerStr (pathExt filename))

/-- The `mediaExts` list enumerated inside `findMediaFile` (note: a strict
subset of `mediaExtensionsList` — it lacks `.bmp`, `.tiff`, `.webm`). -/
def mediaExtsRule3 : List String :=
  [".jpg", ".jpeg", ".png", ".gif", ".heic", ".heif", ".webp",
   ".mp4", ".mov", ".avi", ".mkv", ".3gp"]

/-- First file equal to `target` (a Go `for` loop with early return). -/
def findFirstEq (target : String) (files : List String) : Option String :=
  files.find? (fun f => f == target)

/-- First file case-insensitively equal to `target`. -/
def findFirstFold (target : String) (files : List String) : Option String :=
  files.find? (fun f => equalFold f target)

/-- The third rule of `findMediaFile`: for each enumerated extension that the
lowered `baseName` ends with, look for the first file case-insensitively
equal to `baseName`. -/
def rule3Loop (baseName : String) (files : List String) : List String → Option String
  | [] => none
  | ext :: rest =>
    if endsWithStr (lowerStr baseName) ext then
      match findFirstFold baseName files with
      | some f => some f
      | none => rule3Loop baseName files rest
    else rule3Loop baseName files rest

/-- Go `findMediaFile`: locate the media file described by a JSON sidecar.
Returns `""` when nothing matches (the Go empty-string sentinel). -/
def findMediaFile (jsonName title : String) (filesInDir : List String) : String :=
  let baseName := trimSuffix jsonName ".json"
  match findFirstEq baseName filesInDir with
  | some f => f
  | none =>
    match (if title != "" then findFirstEq title filesInDir else none) with
    | some f => f
    | none =>
      match rule3Loop baseName filesInDir mediaExtsRule3 with
      | some f => f
      | none =>
        match lastIndexOfChar '(' baseName.data with
        | some idx =>
          if 0 < idx then
            match findFirstEq ⟨baseName.data.take idx⟩ filesInDir with
            | some f => f
            | none => ""
          else ""
        | none => ""

/-! ## Timestamp filtering -/

/-- Go `2 * time.Second` in nanoseconds. -/
def tolerance : Int := 2 * 1000000000

/-- Go `time.Time.Sub`: the difference of two instants as a `time.Duration`
(int64 nanoseconds).  When the true difference does not fit, the maximum or
minimum Duration is returned (the documented saturating behaviour). -/
def subSaturate (x y : Int) : Int :=
  if x - y > int64Max then int64Max
  else if x - y < int64Min then int64Min
  else x - y

/-- Go int64 negation as applied to a `time.Duration`: two's-complement
negation, so the minimum duration is its own negation. -/
def negInt64 (d : Int) : Int :=
  if d = int64Min then int64Min else -d

/-- The loop body of `filterByTimestamp`: keep the assets whose first present
timestamp field (local date time, then file-creation, then EXIF original)
lies within `tolerance` of `targetTime` — with the Go int64 Duration
arithmetic: `Sub` saturates and `diff = -diff` wraps at the minimum
duration, which lets a candidate at least `2^63` ns in the past through. -/
def filterLoop (targetTime : Int) : List Asset → List Asset
  | [] => []
  | a :: rest =>
    let assetTime : Option Int :=
      if a.localDateTime.isSome then a.localDateTime
      else if a.fileCreatedAt.isSome then a.fileCreatedAt
      else if a.dateTimeOriginal.isSome then a.dateTimeOriginal
      else none
    match assetTime with
    | none => filterLoop targetTime rest
    | some t =>
      let diff := subSaturate t targetTime
      let diff' := if diff < 0 then negInt64 diff else diff
      if diff' ≤ tolerance then a :: filterLoop targetTime rest
      else filterLoop targetTime rest

/-- Go `filterByTimestamp`: the matches kept by the loop, or the empty list
(Go's nil) when none qualifies. -/
def filterByTimestamp (assets : List Asset) (targetTime : Int) : List Asset :=
  let kept := filterLoop targetTime assets
  if kept.length > 0 then kept else []

/-! ## The correlation driver (`processFS` and `Run`) -/

/-- The classification of one walked entry, one constructor per early-return
branch of the per-entry closure in `processFS`:
* `notJson`: a file without the (case-insensitive) `.json` suffix;
* `skipped`: counted as a JSON file but silently skipped (read error, parse
  error, not an asset record, or no reference URL);
* `noMediaFile`, `hashError`, `notFound`, `matched`: the classifications;
* `dryRunSkip`: dry-run mode returns after hashing, claiming the media path
  but recording no classification. -/
inductive Outcome where
  | notJson : Outcome
  | skipped : Outcome
  | noMediaFile : Outcome
  | hashError (mediaPath : String) : Outcome
  | dryRunSkip (mediaPath : String) : Outcome
  | notFound (url jsonFile mediaPath hash : String) : Outcome
  | matched (url jsonFile mediaPath hash method : String) (first : Asset) : Outcome
deriving DecidableEq, Repr

/-- The media path a classification marks as claimed, if any
(`claimedMedia[mediaPath] = true` runs before hashing, so the hash-error,
dry-run, not-found and matched branches all claim). -/
def Outcome.claims : Outcome → Option String
  | .hashError mp => some mp
  | .dryRunSkip mp => some mp
  | .notFound _ _ mp _ => some mp
  | .matched _ _ mp _ _ _ => some mp
  | _ => none

/-- The filename-fallback block of `processFS` (guarded by
`len(foundAssets) == 0 && m.fallbackFilename`): query by the metadata title
(or the media file name when the title is empty), then by the
extension-stripped base name, then disambiguate by timestamp when more than
one candidate remains and the capture time is present and nonzero.  A failed
query yields a nil slice. -/
def fallbackSearch (env : Env) (md : GoogleMetaData) (mediaFile : String) : List Asset :=
  let searchName := if md.title = "" then mediaFile else md.title
  let baseName := trimSuffix searchName (pathExt searchName)
  let r1 := (env.searchByName searchName).getD []
  let r2 := if r1.isEmpty && baseName != searchName
            then (env.searchByName baseName).getD [] else r1
  if r2.length > 1 then
    match md.photoTakenTime with
    | none => r2
    | some gt =>
      match gt.time with
      | none => r2
      | some googleTime => filterByTimestamp r2 googleTime
  else r2

/-- The per-entry classification of `processFS`'s second walk.  `dirFiles`
maps a directory to the base names of its files.  The outcome does not
depend on the claimed-media set: the Go code never reads `claimedMedia`
during the sidecar pass. -/
def processEntry (cfg : Config) (env : Env) (dirFiles : String → List String)
    (fpath : String) : Outcome :=
  if !(endsWithStr (lowerStr fpath) ".json") then .notJson
  else
    match env.readParse fpath with
    | none => .skipped
    | some none => .skipped
    | some (some md) =>
      if !(md.isAsset && md.hasURL) then .skipped
      else
        let dir := pathDir fpath
        let jsonBase := pathBase fpath
        let mediaFile := findMediaFile jsonBase md.title (dirFiles dir)
        if mediaFile = "" then .noMediaFile
        else
          let mediaPath := pathJoin dir mediaFile
          match env.hashOf mediaPath with
          | none => .hashError mediaPath
          | some hash =>
            if cfg.dryRun then .dryRunSkip mediaPath
            else
              let found0 := (env.searchByHash hash).getD []
              let matchedByHash := !found0.isEmpty
              let found := if found0.isEmpty && cfg.fallbackFilename
                           then fallbackSearch env md mediaFile else found0
              match found with
              | [] => .notFound md.url fpath mediaPath hash
              | a :: _ =>
                .matched md.url fpath mediaPath hash
                  (if matchedByHash then "hash" else "filename+timestamp") a

/-- Apply one entry's outcome to the accumulated result and claimed-media
set, performing exactly the mutations of the corresponding Go branch. -/
def applyOutcome (cfg : Config) (st : MapResult × List String) (o : Outcome) :
    MapResult × List String :=
  let res := st.1
  let claimed := st.2
  match o with
  | .notJson => (res, claimed)
  | .skipped =>
    ({ res with stats := { res.stats with
        totalJSONFiles := res.stats.totalJSONFiles + 1 } }, claimed)
  | .noMediaFile =>
    ({ res with stats := { res.stats with
        totalJSONFiles := res.stats.totalJSONFiles + 1,
        totalGoogleURLs := res.stats.totalGoogleURLs + 1,
        noMediaFile := res.stats.noMediaFile + 1 } }, claimed)
  | .hashError mp =>
    ({ res with stats := { res.stats with
        totalJSONFiles := res.stats.totalJSONFiles + 1,
        totalGoogleURLs := res.stats.totalGoogleURLs + 1,
        hashErrors := res.stats.hashErrors + 1 } }, mp :: claimed)
  | .dryRunSkip mp =>
    ({ res with stats := { res.stats with
        totalJSONFiles := res.stats.totalJSONFiles + 1,
        totalGoogleURLs := res.stats.totalGoogleURLs + 1 } }, mp :: claimed)
  | .notFound u j mp h =>
    ({ res with
        notFound := res.notFound ++ [⟨u, j, mp, h⟩],
        stats := { res.stats with
          totalJSONFiles := res.stats.totalJSONFiles + 1,
          totalGoogleURLs := res.stats.totalGoogleURLs + 1,
          notFoundInImmich := res.stats.notFoundInImmich + 1 } }, mp :: claimed)
  | .matched u j mp h method a =>
    ({ res with
        mappings := res.mappings ++
          [⟨u, cfg.serverURL ++ "/photos/" ++ a.id, j, mp, h, method⟩],
        stats := { res.stats with
          totalJSONFiles := res.stats.totalJSONFiles + 1,
          totalGoogleURLs := res.stats.totalGoogleURLs + 1,
          matched := res.stats.matched + 1,
          matchedByHash :=
            res.stats.matchedByHash + (if method = "hash" then 1 else 0),
          matchedByFilename :=
            res.stats.matchedByFilename + (if method = "hash" then 0 else 1) } },
      mp :: claimed)

/-- The sidecar pass over the walked files, without cancellation. -/
def sidecarFold (cfg : Config) (env : Env) (dirFiles : String → List String) :
    List String → MapResult × List String → MapResult × List String
  | [], st => st
  | f :: rest, st =>
    sidecarFold cfg env dirFiles rest
      (applyOutcome cfg st (processEntry cfg env dirFiles f))

/-- Build the orphan record for one unclaimed media path: best-effort hash
and hash lookup (no lookup in dry-run; failures leave the fields empty). -/
def mkOrphan (cfg : Config) (env : Env) (mediaPath : String) : OrphanMedia :=
  if cfg.dryRun then ⟨mediaPath, "", "", ""⟩
  else
    match env.hashOf mediaPath with
    | none => ⟨mediaPath, "", "", ""⟩
    | some h =>
      match env.searchByHash h with
      | some (a :: _) =>
        ⟨mediaPath, h, cfg.serverURL ++ "/photos/" ++ a.id, a.originalFileName⟩
      | _ => ⟨mediaPath, h, "", ""⟩

/-- The orphan pass: report every media path not in the claimed set.  (Go
iterates the `allMediaFiles` map in unspecified order; the model uses walk
order, which the claims never depend on.) -/
def orphanFold (cfg : Config) (env : Env) (claimed : List String) :
    List String → MapResult → MapResult
  | [], res => res
  | p :: rest, res =>
    if claimed.contains p then orphanFold cfg env claimed rest res
    else orphanFold cfg env claimed rest
      { res with
        orphanMedia := res.orphanMedia ++ [mkOrphan cfg env p],
        stats := { res.stats with orphanMedia := res.stats.orphanMedia + 1 } }

/-- The directory-to-filenames index built by the first walk. -/
def dirFilesOf (files : List String) (dir : String) : List String :=
  (files.filter (fun p => pathDir p = dir)).map pathBase

/-- The media paths recorded by the first walk. -/
def mediaFilesOf (files : List String) : List String :=
  files.filter (fun p => isMediaFile (pathBase p))

/-- Go `processFS` over one tree (its regular files in walk order), without
cancellation: the sidecar pass followed by the orphan pass. -/
def processFS (cfg : Config) (env : Env) (files : List String)
    (res : MapResult) : MapResult :=
  let st := sidecarFold cfg env (dirFilesOf files) files (res, [])
  orphanFold cfg env st.2 (mediaFilesOf files) st.1

/-- The tree loop of `Run` (after the connection handshake), without
cancellation. -/
def runPure (cfg : Config) (env : Env) (trees : List (List String))
    (res : MapResult) : MapResult :=
  trees.foldl (fun r t => processFS cfg env t r) res

/-! ## Cancellation-aware driver -/

/-- The sidecar pass with the per-entry cancellation poll: before each entry
the walk polls `done` at the running counter `n`; when it fires, the walk
aborts with `ctx.Err()`, carrying the state accumulated so far (which
survives in the in-memory result object). -/
def sidecarWalk (cfg : Config) (env : Env) (dirFiles : String → List String)
    (done : Nat → Bool) :
    List String → Nat → MapResult × List String →
    Except (Nat × MapResult × List String) (Nat × MapResult × List String)
  | [], n, st => .ok (n, st)
  | f :: rest, n, st =>
    if done n then .error (n, st.1, st.2)
    else sidecarWalk cfg env dirFiles done rest (n + 1)
      (applyOutcome cfg st (processEntry cfg env dirFiles f))

/-- Go `processFS` with cancellation: a cancelled sidecar walk aborts the tree
before the orphan pass and propagates the error. -/
def processFSCancel (cfg : Config) (env : Env) (done : Nat → Bool)
    (files : List String) (n : Nat) (res : MapResult) :
    Except (Nat × MapResult × List String) (Nat × MapResult) :=
  match sidecarWalk cfg env (dirFilesOf files) done files n (res, []) with
  | .error e => .error e
  | .ok (n', st) => .ok (n', orphanFold cfg env st.2 (mediaFilesOf files) st.1)

/-- The tree loop of `Run` with cancellation: on any tree error `Run`
returns `(nil, err)` — the caller receives no result at all. -/
def runCancel (cfg : Config) (env : Env) (done : Nat → Bool) :
    List (List String) → Nat → MapResult → Option MapResult
  | [], _, res => some res
  | t :: ts, n, res =>
    match processFSCancel cfg env done t n res with
    | .error _ => none
    | .ok (n', res') => runCancel cfg env done ts n' res'

/-! ## Specification-side definitions

These definitions follow the wording of the specification (not the code) and
are compared against the code-side definitions above. -/

/-- Modelled from the spec: the best available timestamp of a candidate, in
priority order local capture time, then file-creation time, then EXIF
original time; the first present field wins. -/
def bestTimestampSpec (a : Asset) : Option Int :=
  match a.localDateTime with
  | some t => some t
  | none =>
    match a.fileCreatedAt with
    | some t => some t
    | none => a.dateTimeOriginal

/-- Modelled from the spec: the candidate's best available timestamp exists
and differs from the reference timestamp by at most 2 seconds. -/
def withinToleranceSpec (a : Asset) (ref : Int) : Bool :=
  match bestTimestampSpec a with
  | none => false
  | some t => decide (|t - ref| ≤ 2 * 1000000000)

/-- Modelled from the amended claim (C2): the candidate's best available
timestamp exists and either differs from the reference by at most 2 seconds,
or lies at least `2^63` nanoseconds in the past of the reference — the case
where Go's saturating `Sub` and wrapping negation keep the candidate. -/
def withinToleranceGo (a : Asset) (ref : Int) : Bool :=
  match bestTimestampSpec a with
  | none => false
  | some t => decide (|t - ref| ≤ 2 * 1000000000 ∨ t - ref ≤ int64Min)

/-- Modelled from the spec: the candidate's name ends (case-insensitively)
with one of the fixed enumerated media extensions. -/
def recognizedMediaExt (f : String) : Bool :=
  mediaExtsRule3.any (fun e => endsWithStr (lowerStr f) e)

/-- Modelled from the claim's words (C3 rule 4): the suffix-stripped name
carries a parenthesized numeric suffix `(digits)` at its end; stripping it
gives the name to retry.  Returns `none` when there is no such suffix. -/
def stripParenNumericSuffix (b : String) : Option String :=
  match lastIndexOfChar '(' b.data with
  | none => none
  | some i =>
    let inner := b.data.drop (i + 1)
    if inner.getLast? = some ')'
        && !(inner.dropLast.isEmpty)
        && inner.dropLast.all (fun c => decide ('0' ≤ c) && decide (c ≤ '9'))
    then some ⟨b.data.take i⟩
    else none

/-- Modelled from the claim (C3) as stated: the four resolution rules in
order, first match wins, `none` when no rule matches. -/
def associateSpec (jsonName title : String) (filesInDir : List String) :
    Option String :=
  let b := trimSuffix jsonName ".json"
  match filesInDir.find? (fun f => f == b) with
  | some f => some f
  | none =>
    match (if title != "" then filesInDir.find? (fun f => f == title) else none) with
    | some f => some f
    | none =>
      match filesInDir.find? (fun f => equalFold f b && recognizedMediaExt f) with
      | some f => some f
      | none =>
        match stripParenNumericSuffix b with
        | some p => filesInDir.find? (fun f => f == p)
        | none => none

/-- Modelled from the amended claim (C3): as `associateSpec`, but rule 4
fires whenever the suffix-stripped name contains `(` at a position after
its first character, truncating at the last such `(` regardless of what
follows it. -/
def associateAmended (jsonName title : String) (filesInDir : List String) :
    Option String :=
  let b := trimSuffix jsonName ".json"
  match filesInDir.find? (fun f => f == b) with
  | some f => some f
  | none =>
    match (if title != "" then filesInDir.find? (fun f => f == title) else none) with
    | some f => some f
    | none =>
      match filesInDir.find? (fun f => equalFold f b && recognizedMediaExt f) with
      | some f => some f
      | none =>
        match lastIndexOfChar '(' b.data with
        | some i =>
          if 0 < i then filesInDir.find? (fun f => f == (⟨b.data.take i⟩ : String))
          else none
        | none => none

/-! ## Concrete fixtures used by witnesses and counterexamples -/

/-- A non-dry-run configuration with fallback disabled. -/
def cfgNoFallback : Config := ⟨"https://immich.example", false, false⟩

/-- A non-dry-run configuration with fallback enabled. -/
def cfgFallback : Config := ⟨"https://immich.example", false, true⟩

/-- A sidecar asset record with a capture timestamp and a reference URL. -/
def mdIMG1 : GoogleMetaData :=
  ⟨"IMG_1.jpg", some ⟨"1600000000"⟩, "https://photos.google.com/9"⟩

/-- A catalog candidate with no timestamp fields. -/
def assetUUID9 : Asset := ⟨"uuid9", "IMG_1.jpg", none, none, none⟩

/-- An environment where the one sidecar resolves by hash. -/
def envHashHit : Env :=
  { readParse := fun p =>
      if p = "album/IMG_1.jpg.json" then some (some mdIMG1) else none
    hashOf := fun _ => some "QQ"
    searchByHash := fun h => if h = "QQ" then some [assetUUID9] else some []
    searchByName := fun _ => some [] }

/-- An environment where the hash misses and only the name query hits. -/
def envNameHit : Env :=
  { readParse := fun p =>
      if p = "album/IMG_1.jpg.json" then some (some mdIMG1) else none
    hashOf := fun _ => some "QQ"
    searchByHash := fun _ => some []
    searchByName := fun n => if n = "IMG_1.jpg" then some [assetUUID9] else some [] }

/-- An environment where every catalog query misses. -/
def envAllMiss : Env :=
  { readParse := fun p =>
      if p = "album/IMG_1.jpg.json" then some (some mdIMG1) else none
    hashOf := fun _ => some "QQ"
    searchByHash := fun _ => some []
    searchByName := fun _ => some [] }

/-- Two sidecar records that associate with the same media file, to refute
the at-most-one-claim invariant. -/
def mdDup1 : GoogleMetaData := ⟨"", some ⟨"100"⟩, "https://photos.google.com/1"⟩

def mdDup2 : GoogleMetaData := ⟨"", some ⟨"100"⟩, "https://photos.google.com/2"⟩

/-- An environment whose two sidecars both resolve to `a.jpg` and whose
catalog lookups all miss. -/
def envDup : Env :=
  { readParse := fun p =>
      if p = "a.jpg.json" then some (some mdDup1)
      else if p = "a.jpg(1).json" then some (some mdDup2)
      else none
    hashOf := fun _ => some "HH"
    searchByHash := fun _ => some []
    searchByName := fun _ => some [] }

/-- The tree holding one media file and two sidecars, in walk order. -/
def filesDup : List String := ["a.jpg", "a.jpg(1).json", "a.jpg.json"]

/-- A sidecar that classifies as `NoMediaFile` and then a cancellation, for
the C8 counterexample. -/
def envC8 : Env :=
  { readParse := fun p => if p = "b.json" then some (some mdDup1) else none
    hashOf := fun _ => some "HH"
    searchByHash := fun _ => some []
    searchByName := fun _ => some [] }

/-- A signal that fires from the second poll on. -/
def cancelAfterOne : Nat → Bool := fun k => decide (0 < k)

/-- The two accounting identities of the statistics block. -/
def statsBalanced (s : Stats) : Prop :=
  s.totalGoogleURLs = s.matched + s.notFoundInImmich + s.noMediaFile + s.hashErrors ∧
  s.matched = s.matchedByHash + s.matchedByFilename

/-- A candidate whose only timestamp lies more than `2^63` nanoseconds (about
292 years) before reference 0: Go's `Sub` saturates to the minimum duration
and the negation wraps, so the 2-second filter keeps it. -/
def farPastAsset : Asset := ⟨"idC", "f.jpg", some (-9223372036854788153), none, none⟩

/-! ## Claim C1: a digest hit is always classified Matched by hash -/

/-- C1.  For every sidecar record with a capture timestamp and a reference
URL whose media file is found and fingerprinted successfully, if the digest
lookup returns at least one candidate then the outcome is `Matched` with
method `"hash"` and that first candidate, for every configuration (in
particular regardless of the fallback-by-name setting) of a non-dry-run
pass. -/
theorem c1_digest_hit_matches_by_hash
    (cfg : Config) (env : Env) (df : String → List String)
    (fpath mf hash : String) (md : GoogleMetaData) (a : Asset) (rest : List Asset)
    (hdry : cfg.dryRun = false)
    (hjson : endsWithStr (lowerStr fpath) ".json" = true)
    (hread : env.readParse fpath = some (some md))
    (hasset : md.isAsset = true)
    (hurl : md.hasURL = true)
    (hmf : findMediaFile (pathBase fpath) md.title (df (pathDir fpath)) = mf)
    (hne : mf ≠ "")
    (hhash : env.hashOf (pathJoin (pathDir fpath) mf) = some hash)
    (hfound : env.searchByHash hash = some (a :: rest)) :
    processEntry cfg env df fpath =
      Outcome.matched md.url fpath (pathJoin (pathDir fpath) mf) hash "hash" a := by
  simp [processEntry, hjson, hread, hasset, hurl, hmf, hne, hhash, hdry, hfound]

/-- Witness for C1 at a concrete tree, with fallback disabled. -/
theorem c1_witness :
    processEntry cfgNoFallback envHashHit
        (dirFilesOf ["album/IMG_1.jpg", "album/IMG_1.jpg.json"]) "album/IMG_1.jpg.json" =
      Outcome.matched "https://photos.google.com/9" "album/IMG_1.jpg.json"
        "album/IMG_1.jpg" "QQ" "hash" assetUUID9 :=
  c1_digest_hit_matches_by_hash cfgNoFallback envHashHit
    (dirFilesOf ["album/IMG_1.jpg", "album/IMG_1.jpg.json"]) "album/IMG_1.jpg.json"
    "IMG_1.jpg" "QQ" mdIMG1 assetUUID9 []
    (by decide) (by decide) (by decide) (by decide) (by decide) (by decide)
    (by decide) (by decide) (by decide)

/-! ## Claim C6: a digest miss with fallback disabled is NotFound -/

/-- C6.  For every sidecar record with a capture timestamp and a reference
URL whose media file is found and fingerprinted successfully, if the digest
lookup yields zero candidates and fallback-by-name is disabled, the outcome
is `NotFound`, and the appended `NotFound` entry retains the reference URL,
the sidecar path, the media path and the digest. -/
theorem c6_digest_miss_no_fallback_not_found
    (cfg : Config) (env : Env) (df : String → List String)
    (fpath mf hash : String) (md : GoogleMetaData)
    (hdry : cfg.dryRun = false)
    (hfall : cfg.fallbackFilename = false)
    (hjson : endsWithStr (lowerStr fpath) ".json" = true)
    (hread : env.readParse fpath = some (some md))
    (hasset : md.isAsset = true)
    (hurl : md.hasURL = true)
    (hmf : findMediaFile (pathBase fpath) md.title (df (pathDir fpath)) = mf)
    (hne : mf ≠ "")
    (hhash : env.hashOf (pathJoin (pathDir fpath) mf) = some hash)
    (hfound : env.searchByHash hash = some []) :
    processEntry cfg env df fpath =
      Outcome.notFound md.url fpath (pathJoin (pathDir fpath) mf) hash ∧
    ∀ res claimed,
      (applyOutcome cfg (res, claimed)
          (Outcome.notFound md.url fpath (pathJoin (pathDir fpath) mf) hash)).1.notFound =
        res.notFound ++ [⟨md.url, fpath, pathJoin (pathDir fpath) mf, hash⟩] := by
  constructor
  · simp [processEntry, hjson, hread, hasset, hurl, hmf, hne, hhash, hdry, hfall, hfound]
  · intro res claimed
    rfl

/-- Witness for C6 at a concrete tree. -/
theorem c6_witness :
    processEntry cfgNoFallback envAllMiss
        (dirFilesOf ["album/IMG_1.jpg", "album/IMG_1.jpg.json"]) "album/IMG_1.jpg.json" =
      Outcome.notFound "https://photos.google.com/9" "album/IMG_1.jpg.json"
        "album/IMG_1.jpg" "QQ" ∧
    ∀ res claimed,
      (applyOutcome cfgNoFallback (res, claimed)
          (Outcome.notFound "https://photos.google.com/9" "album/IMG_1.jpg.json"
            "album/IMG_1.jpg" "QQ")).1.notFound =
        res.notFound ++
          [⟨"https://photos.google.com/9", "album/IMG_1.jpg.json", "album/IMG_1.jpg", "QQ"⟩] :=
  c6_digest_miss_no_fallback_not_found cfgNoFallback envAllMiss
    (dirFilesOf ["album/IMG_1.jpg", "album/IMG_1.jpg.json"]) "album/IMG_1.jpg.json"
    "IMG_1.jpg" "QQ" mdIMG1
    (by decide) (by decide) (by decide) (by decide) (by decide) (by decide)
    (by decide) (by decide) (by decide) (by decide)

/-! ## Claim C10: a unique name hit is accepted without timestamp checks -/

/-- C10.  When the digest lookup yields zero candidates, fallback-by-name is
enabled, and the name lookup returns exactly one candidate, the record is
classified `Matched` with method `"filename+timestamp"` and that candidate —
for an arbitrary candidate `a`, whose timestamp fields are unconstrained: no
timestamp comparison is performed, because the 2-second filter only runs
when the name lookup returns more than one candidate. -/
theorem c10_single_name_hit_matches_without_filter
    (cfg : Config) (env : Env) (df : String → List String)
    (fpath mf hash : String) (md : GoogleMetaData) (a : Asset)
    (hdry : cfg.dryRun = false)
    (hfall : cfg.fallbackFilename = true)
    (hjson : endsWithStr (lowerStr fpath) ".json" = true)
    (hread : env.readParse fpath = some (some md))
    (hasset : md.isAsset = true)
    (hurl : md.hasURL = true)
    (hmf : findMediaFile (pathBase fpath) md.title (df (pathDir fpath)) = mf)
    (hne : mf ≠ "")
    (hhash : env.hashOf (pathJoin (pathDir fpath) mf) = some hash)
    (hfound : env.searchByHash hash = some [])
    (hname : env.searchByName (if md.title = "" then mf else md.title) = some [a]) :
    processEntry cfg env df fpath =
      Outcome.matched md.url fpath (pathJoin (pathDir fpath) mf) hash
        "filename+timestamp" a := by
  simp [processEntry, fallbackSearch, hjson, hread, hasset, hurl, hmf, hne, hhash,
    hdry, hfall, hfound, hname]

/-- Witness for C10: the candidate's `localDateTime` is a century away from
the sidecar's capture time, yet the single name hit is accepted. -/
theorem c10_witness :
    processEntry cfgFallback
      { envNameHit with searchByName := fun n =>
          if n = "IMG_1.jpg" then some [⟨"uuid9", "IMG_1.jpg", some 0, none, none⟩] else some [] }
      (dirFilesOf ["album/IMG_1.jpg", "album/IMG_1.jpg.json"]) "album/IMG_1.jpg.json" =
      Outcome.matched "https://photos.google.com/9" "album/IMG_1.jpg.json"
        "album/IMG_1.jpg" "QQ" "filename+timestamp" ⟨"uuid9", "IMG_1.jpg", some 0, none, none⟩ :=
  c10_single_name_hit_matches_without_filter cfgFallback _
    (dirFilesOf ["album/IMG_1.jpg", "album/IMG_1.jpg.json"]) "album/IMG_1.jpg.json"
    "IMG_1.jpg" "QQ" mdIMG1 ⟨"uuid9", "IMG_1.jpg", some 0, none, none⟩
    (by decide) (by decide) (by decide) (by decide) (by decide) (by decide)
    (by decide) (by decide) (by decide) (by decide) (by decide)

/-! ## Claim C2: the timestamp filter and the 2-second tolerance
(corrected: Go's saturating Duration arithmetic lets far-past candidates
through) -/

/-- The Go branch condition — saturating subtraction, wrapping negation,
comparison with the tolerance — holds exactly when the difference is within
2 seconds or at least `2^63` nanoseconds in the past. -/
theorem goKeep_iff (t ref : Int) :
    ((if subSaturate t ref < 0 then negInt64 (subSaturate t ref)
      else subSaturate t ref) ≤ tolerance) ↔
      (|t - ref| ≤ 2 * 1000000000 ∨ t - ref ≤ int64Min) := by
  rw [abs_le]
  unfold subSaturate negInt64 tolerance int64Max int64Min
  split_ifs <;> omega

/-- The cascade of zero-checks in the loop equals the spec's best-timestamp
priority order. -/
theorem assetTimeChain_eq_best (a : Asset) :
    (if a.localDateTime.isSome then a.localDateTime
     else if a.fileCreatedAt.isSome then a.fileCreatedAt
     else if a.dateTimeOriginal.isSome then a.dateTimeOriginal
     else none) = bestTimestampSpec a := by
  rcases a with ⟨i, o, ldt, fca, dto⟩
  cases ldt <;> cases fca <;> cases dto <;> simp [bestTimestampSpec]

/-- The Go loop is the filter by the amended tolerance predicate. -/
theorem filterLoop_eq_filter (t : Int) (l : List Asset) :
    filterLoop t l = l.filter (fun a => withinToleranceGo a t) := by
  induction l with
  | nil => rfl
  | cons a rest ih =>
    show (match (if a.localDateTime.isSome then a.localDateTime
          else if a.fileCreatedAt.isSome then a.fileCreatedAt
          else if a.dateTimeOriginal.isSome then a.dateTimeOriginal
          else none) with
      | none => filterLoop t rest
      | some tt =>
        if (if subSaturate tt t < 0 then negInt64 (subSaturate tt t)
            else subSaturate tt t) ≤ tolerance then a :: filterLoop t rest
        else filterLoop t rest) = _
    rw [assetTimeChain_eq_best, List.filter_cons]
    cases hb : bestTimestampSpec a with
    | none =>
      have : withinToleranceGo a t = false := by
        simp [withinToleranceGo, hb]
      simp [this, ih]
    | some tt =>
      show (if (if subSaturate tt t < 0 then negInt64 (subSaturate tt t)
            else subSaturate tt t) ≤ tolerance then a :: filterLoop t rest
          else filterLoop t rest) = _
      have hw : withinToleranceGo a t =
          decide (|tt - t| ≤ 2 * 1000000000 ∨ tt - t ≤ int64Min) := by
        simp [withinToleranceGo, hb]
      by_cases hle : |tt - t| ≤ 2 * 1000000000 ∨ tt - t ≤ int64Min
      · have hg : withinToleranceGo a t = true := by rw [hw]; exact decide_eq_true hle
        rw [if_pos ((goKeep_iff tt t).mpr hle)]
        simp [hg, ih]
      · have hg : withinToleranceGo a t = false := by rw [hw]; exact decide_eq_false hle
        rw [if_neg (fun hc => hle ((goKeep_iff tt t).mp hc))]
        simp [hg, ih]

/-- Counterexample to C2.  A candidate whose best timestamp lies about 292
years before the reference is not within the 2-second tolerance, yet the
filter keeps it: the true difference underflows `int64` nanoseconds, Go's
`Sub` saturates to the minimum duration, and `diff = -diff` wraps back to
the (negative) minimum, which passes `diff <= tolerance`. -/
theorem c2_counterexample :
    filterByTimestamp [farPastAsset] 0 = [farPastAsset] ∧
    withinToleranceSpec farPastAsset 0 = false := by
  decide

/-- C2 as amended.  The timestamp filter returns exactly the candidates
whose best available timestamp (local capture, then file-creation, then
EXIF original; first present field wins) either differs from the reference
by at most 2 seconds or lies at least `2^63` nanoseconds in the past of the
reference (where the saturating `Sub` and the wrapping negation let the
candidate through) — same elements, order and multiplicity as a filter of
the input — and when no candidate qualifies the result is the empty list,
never an arbitrary pick. -/
theorem c2_amended_filter_saturation (assets : List Asset) (ref : Int) :
    filterByTimestamp assets ref = assets.filter (fun a => withinToleranceGo a ref) ∧
    ((∀ a ∈ assets, withinToleranceGo a ref = false) →
      filterByTimestamp assets ref = []) := by
  have h : filterByTimestamp assets ref =
      assets.filter (fun a => withinToleranceGo a ref) := by
    show (let kept := filterLoop ref assets
          if kept.length > 0 then kept else []) = _
    rw [filterLoop_eq_filter]
    cases hk : assets.filter (fun a => withinToleranceGo a ref) with
    | nil => simp
    | cons x xs => simp
  refine ⟨h, fun hall => ?_⟩
  rw [h, List.filter_eq_nil_iff.mpr]
  intro a ha
  simp [hall a ha]

/-- Witness for the amended C2: the spec's own example — candidates 1 s and
5 s away from the reference; only the 1 s candidate survives, and a lone
5 s candidate yields the empty list. -/
theorem c2_witness :
    filterByTimestamp
        [⟨"idA", "f.jpg", some 101000000000, none, none⟩,
         ⟨"idB", "f.jpg", some 105000000000, none, none⟩] 100000000000 =
      [⟨"idA", "f.jpg", some 101000000000, none, none⟩] ∧
    filterByTimestamp [⟨"idB", "f.jpg", some 105000000000, none, none⟩] 100000000000 = [] := by
  constructor
  · rw [(c2_amended_filter_saturation
      [⟨"idA", "f.jpg", some 101000000000, none, none⟩,
       ⟨"idB", "f.jpg", some 105000000000, none, none⟩] 100000000000).1]
    decide
  · exact (c2_amended_filter_saturation
      [⟨"idB", "f.jpg", some 105000000000, none, none⟩] 100000000000).2 (by decide)

/-! ## Helper lemmas about claiming and the orphan pass -/

/-- One applied outcome conses its claimed media path, if any. -/
theorem applyOutcome_claimed (cfg : Config) (st : MapResult × List String) (o : Outcome) :
    (applyOutcome cfg st o).2 = o.claims.elim st.2 (fun mp => mp :: st.2) := by
  cases o <;> rfl

/-- Membership in the claimed set after the sidecar pass: exactly the initial
claims plus the media paths claimed by some entry's outcome. -/
theorem sidecarFold_claims_mem (cfg : Config) (env : Env) (df : String → List String) :
    ∀ (files : List String) (st : MapResult × List String) (p : String),
      p ∈ (sidecarFold cfg env df files st).2 ↔
        p ∈ st.2 ∨ ∃ f ∈ files, (processEntry cfg env df f).claims = some p := by
  intro files
  induction files with
  | nil => intro st p; simp [sidecarFold]
  | cons f rest ih =>
    intro st p
    show p ∈ (sidecarFold cfg env df rest (applyOutcome cfg st (processEntry cfg env df f))).2 ↔ _
    rw [ih, applyOutcome_claimed]
    cases hc : (processEntry cfg env df f).claims with
    | none => simp [hc]
    | some mp =>
      simp only [Option.elim]
      constructor
      · rintro (hmem | ⟨g, hg, hgp⟩)
        · rcases List.mem_cons.mp hmem with heq | hin
          · exact Or.inr ⟨f, List.mem_cons_self f rest, by rw [heq]; exact hc⟩
          · exact Or.inl hin
        · exact Or.inr ⟨g, List.mem_cons_of_mem f hg, hgp⟩
      · rintro (hin | ⟨g, hg, hgp⟩)
        · exact Or.inl (List.mem_cons_of_mem mp hin)
        · rcases List.mem_cons.mp hg with heq | hgrest
          · subst heq
            rw [hc] at hgp
            injection hgp with hmp
            exact Or.inl (by rw [← hmp]; exact List.mem_cons_self mp st.2)
          · exact Or.inr ⟨g, hgrest, hgp⟩

/-- The path field of an orphan record is the media path it was built from. -/
theorem mkOrphan_path (cfg : Config) (env : Env) (p : String) :
    (mkOrphan cfg env p).path = p := by
  unfold mkOrphan
  split
  · rfl
  · split
    · rfl
    · split <;> rfl

/-- The sidecar pass never touches the orphan list. -/
theorem sidecarFold_orphanMedia (cfg : Config) (env : Env) (df : String → List String) :
    ∀ (files : List String) (st : MapResult × List String),
      (sidecarFold cfg env df files st).1.orphanMedia = st.1.orphanMedia := by
  intro files
  induction files with
  | nil => intro st; rfl
  | cons f rest ih =>
    intro st
    show (sidecarFold cfg env df rest (applyOutcome cfg st (processEntry cfg env df f))).1.orphanMedia = _
    rw [ih]
    cases processEntry cfg env df f <;> rfl

/-- The orphan pass appends exactly one record per unclaimed media path. -/
theorem orphanFold_orphanMedia (cfg : Config) (env : Env) (claimed : List String) :
    ∀ (media : List String) (res : MapResult),
      (orphanFold cfg env claimed media res).orphanMedia =
        res.orphanMedia ++
          (media.filter (fun p => !(claimed.contains p))).map (mkOrphan cfg env) := by
  intro media
  induction media with
  | nil => intro res; simp [orphanFold]
  | cons p rest ih =>
    intro res
    by_cases hp : claimed.contains p
    · simp only [orphanFold]
      rw [if_pos hp, ih, List.filter_cons]
      have hmem : p ∈ claimed := by simpa using hp
      simp [hmem]
    · simp only [orphanFold]
      rw [if_neg hp, ih, List.filter_cons]
      have hmem : p ∉ claimed := by simpa using hp
      simp [hmem]

/-! ## Claim C4: claiming is not exclusive (corrected) -/

/-- Under the usual sidecar preconditions, the outcome is `NoMediaFile`
exactly when the associator returns the empty sentinel — independent of any
previously claimed media. -/
theorem processEntry_noMediaFile_iff (cfg : Config) (env : Env)
    (df : String → List String) (f : String) (md : GoogleMetaData)
    (hjson : endsWithStr (lowerStr f) ".json" = true)
    (hread : env.readParse f = some (some md))
    (hmd : (md.isAsset && md.hasURL) = true) :
    processEntry cfg env df f = Outcome.noMediaFile ↔
      findMediaFile (pathBase f) md.title (df (pathDir f)) = "" := by
  by_cases hmf : findMediaFile (pathBase f) md.title (df (pathDir f)) = ""
  · simp [processEntry, hjson, hread, hmd, hmf]
  · constructor
    · intro h
      exfalso
      simp only [processEntry, hjson, hread, hmd, hmf] at h
      simp only [Bool.not_true, Bool.false_eq_true, if_false, ite_false] at h
      split at h
      · exact Outcome.noConfusion h
      · split at h
        · exact Outcome.noConfusion h
        · split at h
          · exact Outcome.noConfusion h
          · exact Outcome.noConfusion h
    · intro h
      exact absurd h hmf

/-- Counterexample to C4.  In the tree `filesDup` the sidecars
`a.jpg.json` and `a.jpg(1).json` both associate with the single media file
`a.jpg` (the second via parenthesis stripping): both are classified —
here both `NotFound` with media path `a.jpg` — and neither is
`NoMediaFile`, so a media file is claimed by two sidecars. -/
theorem c4_counterexample :
    (processFS cfgNoFallback envDup filesDup emptyResult).notFound =
      [⟨"https://photos.google.com/2", "a.jpg(1).json", "a.jpg", "HH"⟩,
       ⟨"https://photos.google.com/1", "a.jpg.json", "a.jpg", "HH"⟩] ∧
    (processFS cfgNoFallback envDup filesDup emptyResult).stats.noMediaFile = 0 := by
  decide

/-- C4 as amended.  The claimed-media set records every associated media
path — possibly the same path for several sidecars, with no exclusivity —
and a sidecar is classified `NoMediaFile` exactly when the associator finds
no media file for it, independent of earlier claims. -/
theorem c4_amended_claiming (cfg : Config) (env : Env) (files : List String)
    (res : MapResult) (cl : List String) :
    (∀ p, p ∈ (sidecarFold cfg env (dirFilesOf files) files (res, cl)).2 ↔
        p ∈ cl ∨ ∃ f ∈ files,
          (processEntry cfg env (dirFilesOf files) f).claims = some p) ∧
    (∀ f md, endsWithStr (lowerStr f) ".json" = true →
        env.readParse f = some (some md) → (md.isAsset && md.hasURL) = true →
        (processEntry cfg env (dirFilesOf files) f = Outcome.noMediaFile ↔
          findMediaFile (pathBase f) md.title (dirFilesOf files (pathDir f)) = "")) := by
  constructor
  · intro p
    exact sidecarFold_claims_mem cfg env (dirFilesOf files) files (res, cl) p
  · intro f md hjson hread hmd
    exact processEntry_noMediaFile_iff cfg env (dirFilesOf files) f md hjson hread hmd

/-- Witness for the amended C4: in the duplicate-claim tree, `a.jpg` is in
the claimed set via the sidecar `a.jpg.json`. -/
theorem c4_amended_witness :
    "a.jpg" ∈ (sidecarFold cfgNoFallback envDup (dirFilesOf filesDup) filesDup
      (emptyResult, [])).2 :=
  ((c4_amended_claiming cfgNoFallback envDup filesDup emptyResult []).1 "a.jpg").mpr
    (Or.inr ⟨"a.jpg.json", by decide, by decide⟩)

/-! ## Claim C5: claimed media never appears as an orphan -/

/-- C5.  The orphan records appended by one tree's pass extend the previous
orphan list, and none of them carries a media path claimed by any sidecar
outcome of that tree (in particular none classified `Matched`, `NotFound`
or `HashError`); conversely every claimed path is excluded from the orphan
pass. -/
theorem c5_claimed_media_never_orphaned (cfg : Config) (env : Env)
    (files : List String) (res : MapResult) :
    ∃ newOrphans : List OrphanMedia,
      (processFS cfg env files res).orphanMedia = res.orphanMedia ++ newOrphans ∧
      ∀ o ∈ newOrphans, ∀ f ∈ files,
        (processEntry cfg env (dirFilesOf files) f).claims ≠ some o.path := by
  refine ⟨((mediaFilesOf files).filter
      (fun p => !((sidecarFold cfg env (dirFilesOf files) files (res, [])).2.contains p))).map
      (mkOrphan cfg env), ?_, ?_⟩
  · show (orphanFold cfg env _ (mediaFilesOf files) _).orphanMedia = _
    rw [orphanFold_orphanMedia, sidecarFold_orphanMedia]
  · intro o ho f hf hclaims
    rcases List.mem_map.mp ho with ⟨p, hp, rfl⟩
    have hpf := List.of_mem_filter hp
    rw [mkOrphan_path] at hclaims
    have hmem : p ∈ (sidecarFold cfg env (dirFilesOf files) files (res, [])).2 :=
      (sidecarFold_claims_mem cfg env (dirFilesOf files) files (res, []) p).mpr
        (Or.inr ⟨f, hf, hclaims⟩)
    have hc : ((sidecarFold cfg env (dirFilesOf files) files (res, [])).2).contains p = true :=
      List.elem_iff.mpr hmem
    rw [hc] at hpf
    simp at hpf

/-- Witness for C5 on the duplicate-claim tree, where `a.jpg` is claimed
and the orphan list stays empty. -/
theorem c5_witness :
    ∃ newOrphans : List OrphanMedia,
      (processFS cfgNoFallback envDup filesDup emptyResult).orphanMedia =
        emptyResult.orphanMedia ++ newOrphans ∧
      ∀ o ∈ newOrphans, ∀ f ∈ filesDup,
        (processEntry cfgNoFallback envDup (dirFilesOf filesDup) f).claims ≠ some o.path :=
  c5_claimed_media_never_orphaned cfgNoFallback envDup filesDup emptyResult

/-! ## Claim C7: per-item failures never abort the run -/

/-- With the cancellation signal never firing, the cancellable sidecar walk
completes over every entry and equals the total fold. -/
theorem sidecarWalk_no_cancel (cfg : Config) (env : Env) (df : String → List String)
    (done : Nat → Bool) (h : ∀ k, done k = false) :
    ∀ (files : List String) (n : Nat) (st : MapResult × List String),
      sidecarWalk cfg env df done files n st =
        .ok (n + files.length, sidecarFold cfg env df files st) := by
  intro files
  induction files with
  | nil => intro n st; simp [sidecarWalk, sidecarFold]
  | cons f rest ih =>
    intro n st
    show (if done n then _ else _) = _
    rw [h n, if_neg (by simp), ih]
    show Except.ok (n + 1 + rest.length, _) = Except.ok (n + (rest.length + 1), _)
    rw [show n + 1 + rest.length = n + (rest.length + 1) from by omega]
    rfl

/-- C7.  No per-item failure aborts the run: for every environment —
including ones where sidecar reads, metadata parses, fingerprinting or
catalog queries fail arbitrarily — an uncancelled run processes every tree
and every entry, returning exactly the total classification fold; moreover
a failed catalog query is observationally identical to one returning zero
candidates. -/
theorem c7_no_per_item_abort (cfg : Config) (env : Env) :
    (∀ (done : Nat → Bool), (∀ k, done k = false) →
      ∀ (trees : List (List String)) (n : Nat) (res : MapResult),
        runCancel cfg env done trees n res = some (runPure cfg env trees res)) ∧
    (∀ (env2 : Env) (df : String → List String) (f : String),
      env.readParse = env2.readParse → env.hashOf = env2.hashOf →
      (∀ x, (env.searchByHash x).getD [] = (env2.searchByHash x).getD []) →
      (∀ x, (env.searchByName x).getD [] = (env2.searchByName x).getD []) →
      processEntry cfg env df f = processEntry cfg env2 df f) := by
  constructor
  · intro done hdone trees
    induction trees with
    | nil => intro n res; rfl
    | cons t ts ih =>
      intro n res
      show (match processFSCancel cfg env done t n res with
            | .error _ => none
            | .ok (n', res') => runCancel cfg env done ts n' res') = _
      unfold processFSCancel
      rw [sidecarWalk_no_cancel cfg env (dirFilesOf t) done hdone t n (res, [])]
      show runCancel cfg env done ts _ _ = _
      rw [ih]
      rfl
  · intro env2 df f h1 h2 h3 h4
    unfold processEntry fallbackSearch
    rw [h1, h2]
    simp only [h3, h4]

/-- Witness for C7: an environment where every read and every query fails,
over two trees; the run still completes and classifies every entry. -/
theorem c7_witness :
    runCancel cfgNoFallback
        ⟨fun _ => none, fun _ => none, fun _ => none, fun _ => none⟩
        (fun _ => false) [["a.json", "b.jpg"], ["c.json"]] 0 emptyResult =
      some (runPure cfgNoFallback
        ⟨fun _ => none, fun _ => none, fun _ => none, fun _ => none⟩
        [["a.json", "b.jpg"], ["c.json"]] emptyResult) :=
  (c7_no_per_item_abort cfgNoFallback
      ⟨fun _ => none, fun _ => none, fun _ => none, fun _ => none⟩).1
    (fun _ => false) (fun _ => rfl) [["a.json", "b.jpg"], ["c.json"]] 0 emptyResult

/-! ## Claim C8: cancellation semantics (corrected) -/

/-- When the signal first fires at the j-th entry of the walk, the walk
aborts there: the error state is exactly the fold over the first j entries
(classifications made so far are retained in the in-memory object), and the
remaining entries are never classified. -/
theorem sidecarWalk_cancelled (cfg : Config) (env : Env) (df : String → List String)
    (done : Nat → Bool) :
    ∀ (files : List String) (j n : Nat) (st : MapResult × List String),
      j < files.length → (∀ i, i < j → done (n + i) = false) → done (n + j) = true →
      sidecarWalk cfg env df done files n st =
        .error (n + j, sidecarFold cfg env df (files.take j) st) := by
  intro files
  induction files with
  | nil => intro j n st hj; exact absurd hj (by simp)
  | cons f rest ih =>
    intro j n st hj hbefore hat
    cases j with
    | zero =>
      show (if done n then _ else _) = _
      rw [show done n = true from by simpa using hat, if_pos rfl]
      rfl
    | succ j' =>
      show (if done n then _ else _) = _
      rw [show done n = false from by simpa using hbefore 0 (Nat.succ_pos j'), if_neg (by simp)]
      rw [ih j' (n + 1) (applyOutcome cfg st (processEntry cfg env df f))
        (by simpa using Nat.lt_of_succ_lt_succ hj)
        (fun i hi => by rw [show n + 1 + i = n + (i + 1) from by omega]
                        exact hbefore (i + 1) (Nat.succ_lt_succ hi))
        (by rw [show n + 1 + j' = n + (j' + 1) from by omega]; exact hat)]
      rw [show n + 1 + j' = n + (j' + 1) from by omega]
      rfl

/-- C8 as amended.  The driver polls the cancellation signal before each
walked entry; when it first fires at the j-th entry of a tree, the tree's
walk stops with the classifications of the first j entries retained in the
in-memory state carried by the error, the remaining entries are not
classified — and `Run` then returns an error with no result, so nothing
(including the already-classified entries) is returned to the caller. -/
theorem c8_amended_cancellation (cfg : Config) (env : Env) (done : Nat → Bool)
    (files : List String) (ts : List (List String)) (j n : Nat) (res : MapResult)
    (hj : j < files.length)
    (hbefore : ∀ i, i < j → done (n + i) = false)
    (hat : done (n + j) = true) :
    processFSCancel cfg env done files n res =
      .error (n + j, sidecarFold cfg env (dirFilesOf files) (files.take j) (res, [])) ∧
    runCancel cfg env done (files :: ts) n res = none := by
  have hw := sidecarWalk_cancelled cfg env (dirFilesOf files) done files j n (res, [])
    hj hbefore hat
  constructor
  · unfold processFSCancel
    rw [hw]
  · show (match processFSCancel cfg env done files n res with
          | .error _ => none
          | .ok (n', res') => runCancel cfg env done ts n' res') = _
    unfold processFSCancel
    rw [hw]

/-- Counterexample to C8.  In a tree `["b.json", "c.json"]` the first entry
is classified (`NoMediaFile`, visible in the aborted walk's carried state)
before the signal fires at the second poll — yet `Run` returns no result at
all (`none`), so the already-classified entry is not preserved in any
results returned to the caller. -/
theorem c8_counterexample :
    sidecarWalk cfgNoFallback envC8 (dirFilesOf ["b.json", "c.json"]) cancelAfterOne
        ["b.json", "c.json"] 0 (emptyResult, []) =
      .error (1, { emptyResult with stats :=
        { emptyStats with totalJSONFiles := 1, totalGoogleURLs := 1, noMediaFile := 1 } }, []) ∧
    runCancel cfgNoFallback envC8 cancelAfterOne [["b.json", "c.json"]] 0 emptyResult =
      none := by
  constructor
  · rfl
  · rfl

/-- Witness for the amended C8 at the same concrete run. -/
theorem c8_amended_witness :
    processFSCancel cfgNoFallback envC8 cancelAfterOne ["b.json", "c.json"] 0 emptyResult =
      .error (0 + 1, sidecarFold cfgNoFallback envC8 (dirFilesOf ["b.json", "c.json"])
        (["b.json", "c.json"].take 1) (emptyResult, [])) ∧
    runCancel cfgNoFallback envC8 cancelAfterOne [["b.json", "c.json"]] 0 emptyResult =
      none :=
  c8_amended_cancellation cfgNoFallback envC8 cancelAfterOne ["b.json", "c.json"] [] 1 0
    emptyResult (by decide)
    (fun i hi => by
      have h0 : i = 0 := Nat.lt_one_iff.mp hi
      subst h0
      rfl)
    (by decide)

/-! ## Claim C9: the statistics accounting identities -/

/-- In a non-dry-run pass no entry is classified `dryRunSkip`. -/
theorem processEntry_not_dryRunSkip (cfg : Config) (env : Env)
    (df : String → List String) (f : String) (h : cfg.dryRun = false) (mp : String) :
    processEntry cfg env df f ≠ Outcome.dryRunSkip mp := by
  intro hc
  unfold processEntry at hc
  split at hc
  · exact Outcome.noConfusion hc
  · split at hc
    · exact Outcome.noConfusion hc
    · exact Outcome.noConfusion hc
    · split at hc
      · exact Outcome.noConfusion hc
      · split at hc
        · simp_all
        · dsimp only [] at hc
          split at hc
          · exact Outcome.noConfusion hc
          · split at hc
            · exact Outcome.noConfusion hc
            · split at hc
              · exact Outcome.noConfusion hc
              · exact Outcome.noConfusion hc

/-- Applying any non-dry-run outcome preserves the accounting identities:
each classification increments the total and exactly one classification
counter, and a match increments exactly one method counter. -/
theorem statsBalanced_applyOutcome (cfg : Config) (st : MapResult × List String)
    (o : Outcome) (ho : ∀ mp, o ≠ Outcome.dryRunSkip mp)
    (h : statsBalanced st.1.stats) : statsBalanced (applyOutcome cfg st o).1.stats := by
  rcases h with ⟨h1, h2⟩
  cases o with
  | notJson => exact ⟨h1, h2⟩
  | skipped => constructor <;> simp [applyOutcome] <;> omega
  | noMediaFile => constructor <;> simp [applyOutcome] <;> omega
  | hashError mp => constructor <;> simp [applyOutcome] <;> omega
  | dryRunSkip mp => exact absurd rfl (ho mp)
  | notFound u j mp hh => constructor <;> simp [applyOutcome] <;> omega
  | matched u j mp hh m a =>
    by_cases hm : m = "hash"
    · constructor <;> simp [applyOutcome, hm] <;> omega
    · constructor <;> simp [applyOutcome, hm] <;> omega

/-- The sidecar pass preserves the accounting identities when not dry-run. -/
theorem statsBalanced_sidecarFold (cfg : Config) (env : Env)
    (df : String → List String) (hdry : cfg.dryRun = false) :
    ∀ (files : List String) (st : MapResult × List String),
      statsBalanced st.1.stats → statsBalanced (sidecarFold cfg env df files st).1.stats := by
  intro files
  induction files with
  | nil => intro st h; exact h
  | cons f rest ih =>
    intro st h
    exact ih _ (statsBalanced_applyOutcome cfg st _
      (processEntry_not_dryRunSkip cfg env df f hdry) h)

/-- The orphan pass touches only the orphan counter. -/
theorem statsBalanced_orphanFold (cfg : Config) (env : Env) (claimed : List String) :
    ∀ (media : List String) (res : MapResult),
      statsBalanced res.stats → statsBalanced (orphanFold cfg env claimed media res).stats := by
  intro media
  induction media with
  | nil => intro res h; exact h
  | cons p rest ih =>
    intro res h
    simp only [orphanFold]
    split
    · exact ih res h
    · exact ih _ ⟨h.1, h.2⟩

/-- One tree's pass preserves the identities when not dry-run. -/
theorem statsBalanced_processFS (cfg : Config) (env : Env) (files : List String)
    (res : MapResult) (hdry : cfg.dryRun = false) (h : statsBalanced res.stats) :
    statsBalanced (processFS cfg env files res).stats :=
  statsBalanced_orphanFold cfg env _ (mediaFilesOf files) _
    (statsBalanced_sidecarFold cfg env (dirFilesOf files) hdry files (res, []) h)

/-- C9.  After a non-dry-run pass over any trees that completes (without
cancellation), the statistics satisfy
`TotalGoogleURLs = Matched + NotFoundInImmich + NoMediaFile + HashErrors`
and `Matched = MatchedByHash + MatchedByFilename`. -/
theorem c9_statistics_identities (cfg : Config) (env : Env)
    (trees : List (List String)) (hdry : cfg.dryRun = false) :
    (runPure cfg env trees emptyResult).stats.totalGoogleURLs =
      (runPure cfg env trees emptyResult).stats.matched +
      (runPure cfg env trees emptyResult).stats.notFoundInImmich +
      (runPure cfg env trees emptyResult).stats.noMediaFile +
      (runPure cfg env trees emptyResult).stats.hashErrors ∧
    (runPure cfg env trees emptyResult).stats.matched =
      (runPure cfg env trees emptyResult).stats.matchedByHash +
      (runPure cfg env trees emptyResult).stats.matchedByFilename := by
  have key : ∀ (ts : List (List String)) (res : MapResult), statsBalanced res.stats →
      statsBalanced (runPure cfg env ts res).stats := by
    intro ts
    induction ts with
    | nil => intro res h; exact h
    | cons t rest ih =>
      intro res h
      exact ih _ (statsBalanced_processFS cfg env t res hdry h)
  exact key trees emptyResult ⟨rfl, rfl⟩

/-- Witness for C9 at a concrete matched run. -/
theorem c9_witness :
    (runPure cfgNoFallback envHashHit [["album/IMG_1.jpg", "album/IMG_1.jpg.json"]]
        emptyResult).stats.totalGoogleURLs =
      (runPure cfgNoFallback envHashHit [["album/IMG_1.jpg", "album/IMG_1.jpg.json"]]
        emptyResult).stats.matched +
      (runPure cfgNoFallback envHashHit [["album/IMG_1.jpg", "album/IMG_1.jpg.json"]]
        emptyResult).stats.notFoundInImmich +
      (runPure cfgNoFallback envHashHit [["album/IMG_1.jpg", "album/IMG_1.jpg.json"]]
        emptyResult).stats.noMediaFile +
      (runPure cfgNoFallback envHashHit [["album/IMG_1.jpg", "album/IMG_1.jpg.json"]]
        emptyResult).stats.hashErrors ∧
    (runPure cfgNoFallback envHashHit [["album/IMG_1.jpg", "album/IMG_1.jpg.json"]]
        emptyResult).stats.matched =
      (runPure cfgNoFallback envHashHit [["album/IMG_1.jpg", "album/IMG_1.jpg.json"]]
        emptyResult).stats.matchedByHash +
      (runPure cfgNoFallback envHashHit [["album/IMG_1.jpg", "album/IMG_1.jpg.json"]]
        emptyResult).stats.matchedByFilename :=
  c9_statistics_identities cfgNoFallback envHashHit
    [["album/IMG_1.jpg", "album/IMG_1.jpg.json"]] rfl

/-! ## Claim C3: the associator's resolution rules (corrected) -/

/-- Case-insensitive equality means equal lowerings. -/
theorem lowerStr_eq_of_equalFold {f b : String} (h : equalFold f b = true) :
    lowerStr f = lowerStr b := by
  unfold equalFold at h
  exact eq_of_beq h

/-- Extension recognition only depends on the lowered name. -/
theorem recognizedMediaExt_congr {f b : String} (h : lowerStr f = lowerStr b) :
    recognizedMediaExt f = recognizedMediaExt b := by
  unfold recognizedMediaExt
  simp only [h]

/-- When no enumerated extension matches the stripped name, rule 3 yields
nothing. -/
theorem rule3Loop_none_of_no_ext (b : String) (files : List String) :
    ∀ exts, (∀ e ∈ exts, endsWithStr (lowerStr b) e = false) →
      rule3Loop b files exts = none := by
  intro exts
  induction exts with
  | nil => intro _; rfl
  | cons x rest ih =>
    intro h
    simp only [rule3Loop]
    rw [h x (List.mem_cons_self x rest)]
    simp only [Bool.false_eq_true, if_false]
    exact ih (fun e he => h e (List.mem_cons_of_mem x he))

/-- When no file matches case-insensitively, rule 3 yields nothing whatever
the extension list. -/
theorem rule3Loop_none_of_findFold_none (b : String) (files : List String)
    (hn : findFirstFold b files = none) :
    ∀ exts, rule3Loop b files exts = none := by
  intro exts
  induction exts with
  | nil => rfl
  | cons x rest ih =>
    simp only [rule3Loop, hn]
    split
    · exact ih
    · exact ih

/-- When some enumerated extension matches the stripped name, rule 3 is the
first case-insensitive file match. -/
theorem rule3Loop_eq_findFold (b : String) (files : List String) :
    ∀ exts, (∃ e ∈ exts, endsWithStr (lowerStr b) e = true) →
      rule3Loop b files exts = findFirstFold b files := by
  intro exts
  induction exts with
  | nil =>
    intro h
    rcases h with ⟨e, he, _⟩
    exact absurd he (List.not_mem_nil e)
  | cons x rest ih =>
    intro h
    by_cases hx : endsWithStr (lowerStr b) x = true
    · simp only [rule3Loop, hx, if_true]
      cases hf : findFirstFold b files with
      | some f => simp [hf]
      | none => simpa [hf] using rule3Loop_none_of_findFold_none b files hf rest
    · have hx' : endsWithStr (lowerStr b) x = false := by simpa using hx
      simp only [rule3Loop, hx', Bool.false_eq_true, if_false]
      apply ih
      rcases h with ⟨e, he, hee⟩
      rcases List.mem_cons.mp he with heq | hrest
      · subst heq
        exact absurd hee (by simp [hx'])
      · exact ⟨e, hrest, hee⟩

/-- The enumerated rule-3 loop of the code equals the spec-side rule 3:
the first candidate that is case-insensitively equal to the stripped name
and carries a recognized media extension. -/
theorem rule3_spec_eq (b : String) (files : List String) :
    rule3Loop b files mediaExtsRule3 =
      files.find? (fun f => equalFold f b && recognizedMediaExt f) := by
  cases hb : recognizedMediaExt b with
  | true =>
    rw [rule3Loop_eq_findFold b files mediaExtsRule3 (by
      unfold recognizedMediaExt at hb
      simpa using List.any_eq_true.mp hb)]
    unfold findFirstFold
    congr 1
    funext f
    cases hef : equalFold f b with
    | false => simp
    | true =>
      have hrec : recognizedMediaExt f = true := by
        rw [recognizedMediaExt_congr (lowerStr_eq_of_equalFold hef)]
        exact hb
      simp [hrec]
  | false =>
    rw [rule3Loop_none_of_no_ext b files mediaExtsRule3 (by
      intro e he
      unfold recognizedMediaExt at hb
      exact Bool.eq_false_iff.mpr (List.any_eq_false.mp hb e he))]
    symm
    apply List.find?_eq_none.mpr
    intro f _ hp
    have h1 := (Bool.and_eq_true _ _).mp hp
    have h2 : recognizedMediaExt b = true := by
      rw [← recognizedMediaExt_congr (lowerStr_eq_of_equalFold h1.1)]
      exact h1.2
    rw [hb] at h2
    exact Bool.noConfusion h2

/-- Counterexample to C3.  For sidecar `photo(abc).json` (empty title) in a
directory holding the file `photo`, none of the four claimed rules matches —
in particular rule 4 does not apply, since `photo(abc)` carries no
parenthesized *numeric* suffix — so the claimed associator returns `none`;
yet the code truncates at the last `(` regardless of what follows it and
returns `photo`. -/
theorem c3_counterexample :
    findMediaFile "photo(abc).json" "" ["photo"] = "photo" ∧
    associateSpec "photo(abc).json" "" ["photo"] = none := by
  decide

/-- C3 as amended.  The associator equals the four ordered rules with rule 4
broadened: it fires whenever the suffix-stripped name contains `(` at a
position after its first character, truncating at the last such `(`
(numeric or not, closed or not, suffix or not), and the empty-string
sentinel stands for `none`.  Purity holds by construction: the function
depends only on its arguments. -/
theorem c3_amended_associator (jsonName title : String) (files : List String) :
    findMediaFile jsonName title files = (associateAmended jsonName title files).getD "" := by
  simp only [findMediaFile, associateAmended, findFirstEq]
  rw [rule3_spec_eq]
  generalize trimSuffix jsonName ".json" = b
  cases h1 : files.find? (fun f => f == b) with
  | some f => simp [h1]
  | none =>
    by_cases ht : (title != "") = true
    · simp only [h1, ht, if_true]
      cases h2 : files.find? (fun f => f == title) with
      | some f => simp [h2]
      | none =>
        simp only [h2]
        cases h3 : files.find? (fun f => equalFold f b && recognizedMediaExt f) with
        | some f => simp [h3]
        | none =>
          simp only [h3]
          cases h4 : lastIndexOfChar '(' b.data with
          | none => simp [h4]
          | some i =>
            by_cases hi : 0 < i
            · simp only [h4, hi, if_true]
              cases h5 : files.find? (fun f => f == (⟨b.data.take i⟩ : String)) with
              | some f => simp [h5]
              | none => simp [h5]
            · simp [h4, hi]
    · simp only [h1, ht, if_false]
      cases h3 : files.find? (fun f => equalFold f b && recognizedMediaExt f) with
      | some f => simp [h3]
      | none =>
        simp only [h3]
        cases h4 : lastIndexOfChar '(' b.data with
        | none => simp [h4]
        | some i =>
          by_cases hi : 0 < i
          · simp only [h4, hi, if_true]
            cases h5 : files.find? (fun f => f == (⟨b.data.take i⟩ : String)) with
            | some f => simp [h5]
            | none => simp [h5]
          · simp [h4, hi]
